import Mathlib

/-!
Verification development for the batch-analytics-platform repository.

The Python sources are shallowly embedded:
* `src/warehouse/load.py` (fact loader)         -> `load_to_neon`, `transactSteps`, `retryLoop`
* `src/warehouse/load_dim_customer.py`          -> `load_dim_customer`, `loadCustomerPartition`
* `src/transformation/transform.py`             -> `derive_processing_bucket`, `revenueOf`
* `src/ingestion/ingest.py`                     -> `generate_synthetic_transactions`

Tabular data is modelled as Lean lists of structure rows; SQL
`INSERT ... ON CONFLICT (k) DO UPDATE SET ... WHERE <changed>` is modelled as a
fold of a keyed conditional upsert over the staged rows (`mergeRows`); pandas
`drop_duplicates` (which keeps the first occurrence) is `dedupFirstBy`; machine
floats are modelled as rationals; the randomness consumed by the generator is an
explicit oracle of draws; the database transaction of `engine.begin()` is
`commitOrRollback` (the pre-transaction state is kept on any error).
-/

/-! ### Decimal digit strings (models Python `str`/`f"{i:05d}"` rendering) -/

/-- Little-endian decimal digits, fuel-indexed so the recursion is structural.
`natDigitsAux fuel n` is correct whenever `n ≤ fuel`. -/
def natDigitsAux : Nat → Nat → List Nat
  | 0, _ => []
  | _ + 1, 0 => []
  | fuel + 1, n + 1 => (n + 1) % 10 :: natDigitsAux fuel ((n + 1) / 10)

/-- Little-endian decimal digits of `n` (`[]` for `0`). -/
def natDigitsLE (n : Nat) : List Nat := natDigitsAux n n

/-- Value of a little-endian digit list. -/
def ofDigitsLE : List Nat → Nat
  | [] => 0
  | d :: ds => d + 10 * ofDigitsLE ds

/-- Big-endian digits of `n`, zero-padded on the left to width `w`:
models Python `f"{n:0wd}"` at the digit level. -/
def padDigits (w n : Nat) : List Nat :=
  List.replicate (w - (natDigitsLE n).length) 0 ++ (natDigitsLE n).reverse

/-- The ASCII character of a decimal digit. -/
def digitChar : Nat → Char
  | 0 => '0' | 1 => '1' | 2 => '2' | 3 => '3' | 4 => '4'
  | 5 => '5' | 6 => '6' | 7 => '7' | 8 => '8' | 9 => '9'
  | _ => '?'

/-- Zero-padded decimal rendering of `n` to (at least) width `w`. -/
def digitString (w n : Nat) : String := String.mk ((padDigits w n).map digitChar)

/-! ### Calendar helpers used by the dim_date derivation (`load.py` lines 80-90) -/

/-- Python `datetime.weekday` (Monday = 0) computed by Zeller's congruence;
models `full_date.dt.weekday` of pandas. -/
def pythonWeekday (y m d : Nat) : Nat :=
  let m2 := if m < 3 then m + 12 else m
  let y2 := if m < 3 then y - 1 else y
  let K := y2 % 100
  let J := y2 / 100
  let h := (d + (13 * (m2 + 1)) / 5 + K + K / 4 + J / 4 + 5 * J) % 7
  (h + 5) % 7

/-- `(full_date.dt.weekday < 5).astype(int)` of `load.py` line 88-90. -/
def weekdayFlag (y m d : Nat) : Nat := if pythonWeekday y m d < 5 then 1 else 0

/-- Python `round(x, 2)` as a rational (bankers-vs-half-up rounding differs only
at exact midpoints, which no stated property depends on). -/
def round2 (x : Rat) : Rat := (round (x * 100) : Int) / 100

/-! ### Row types of the warehouse schema and of the cleaned partition -/

/-- A row of `dim_date` (`load.py` lines 80-111); `full_date` is the civil date,
kept as its `YYYYMMDD` encoding (pandas `Timestamp` is isomorphic to it here). -/
structure DateRow where
  date_key : Nat
  full_date : Nat
  day : Nat
  month : Nat
  quarter : Nat
  year : Nat
  weekday_flag : Nat
  deriving DecidableEq, Repr

/-- A row of `dim_channel` (`load.py` lines 118-136). -/
structure ChannelRow where
  channel_key : Nat
  channel_name : String
  fee_percent : Rat
  deriving DecidableEq, Repr

/-- A staged customer row (`dim_customer.parquet`, the four columns selected at
`load_dim_customer.py` line 71). -/
structure CustStaged where
  customer_key : Nat
  customer_id : String
  signup_date : String
  segment : String
  deriving DecidableEq, Repr

/-- A row of `dim_customer`; `updated_at` is the audit timestamp, `none` when the
row was inserted without one (the INSERT column list omits it). -/
structure CustomerRow where
  customer_key : Nat
  customer_id : String
  signup_date : String
  segment : String
  updated_at : Option Nat
  deriving DecidableEq, Repr

/-- A row of `fact_transactions` (`load.py` lines 143-157). -/
structure FactRow where
  transaction_id : String
  date_key : Nat
  customer_key : Nat
  channel_key : Nat
  amount : Rat
  status : String
  processing_time : Rat
  processing_delay_bucket : String
  revenue : Rat
  deriving DecidableEq, Repr

/-- A row of the cleaned partition `cleaned_transactions.parquet` produced by
`transform.py` (the columns the loader reads). -/
structure CleanedRow where
  transaction_id : String
  date_key : Nat
  customer_key : Nat
  channel_key : Nat
  amount : Rat
  status : String
  processing_time : Rat
  channel_name : String
  fee_percent : Rat
  processing_delay_bucket : String
  revenue : Rat
  deriving DecidableEq, Repr

/-- The persistent warehouse tables. -/
structure Warehouse where
  dim_date : List DateRow
  dim_channel : List ChannelRow
  dim_customer : List CustomerRow
  fact_transactions : List FactRow
  deriving DecidableEq, Repr

/-! ### Transformation stage (`src/transformation/transform.py`) -/

/-- `derive_processing_bucket` of `transform.py` lines 46-52. -/
def derive_processing_bucket (seconds : Rat) : String :=
  if seconds < 1 then "fast"
  else if seconds < 3 then "medium"
  else "slow"

/-- The revenue column: `df["amount"] * (df["fee_percent"] / 100)`
(`transform.py` line 107). -/
def revenueOf (amount fee_percent : Rat) : Rat := amount * (fee_percent / 100)

/-- `CHANNEL_DIM` of `transform.py` lines 31-36 (also `CHANNELS` of `ingest.py`). -/
def CHANNEL_DIM : List ChannelRow :=
  [ { channel_key := 1, channel_name := "Credit Card", fee_percent := 5 / 2 },
    { channel_key := 2, channel_name := "Debit Card", fee_percent := 1 },
    { channel_key := 3, channel_name := "UPI", fee_percent := 1 / 2 },
    { channel_key := 4, channel_name := "Net Banking", fee_percent := 3 / 2 } ]

/-! ### pandas `drop_duplicates` with `keep="first"` -/

/-- Fuel-indexed body of `dedupFirstBy` (structural recursion so the kernel can
evaluate it). -/
def dedupFirstByAux {σ κ : Type} [DecidableEq κ] (key : σ → κ) : Nat → List σ → List σ
  | 0, _ => []
  | _ + 1, [] => []
  | fuel + 1, r :: rs =>
      r :: dedupFirstByAux key fuel (rs.filter (fun s => !(decide (key s = key r))))

/-- pandas `drop_duplicates(subset=[key])`: keeps the first row of each key, in
input order. -/
def dedupFirstBy {σ κ : Type} [DecidableEq κ] (key : σ → κ) (l : List σ) : List σ :=
  dedupFirstByAux key l.length l

/-! ### Set-based keyed conditional upsert
(`INSERT ... ON CONFLICT (key) DO UPDATE SET ... WHERE <changed>`) -/

/-- A merge specification: staged rows of type `σ` are merged into a table of
rows of type `τ` keyed by `κ`.  `ins` builds the inserted row, `upd staged old`
the updated row, and `changed old staged` is the `WHERE ... IS DISTINCT FROM`
guard (`true` means the stored row is rewritten). -/
structure MergeSpec (σ τ κ : Type) where
  keyS : σ → κ
  keyT : τ → κ
  ins : σ → τ
  upd : σ → τ → τ
  changed : τ → σ → Bool

/-- One staged row reconciled against the table: update-in-place on key
conflict (only when `changed`), append otherwise. -/
def upsertRow {σ τ κ : Type} [DecidableEq κ] (M : MergeSpec σ τ κ)
    (t : List τ) (s : σ) : List τ :=
  if t.any (fun x => decide (M.keyT x = M.keyS s)) then
    t.map (fun x =>
      if M.keyT x = M.keyS s then (if M.changed x s then M.upd s x else x) else x)
  else t ++ [M.ins s]

/-- The set-based merge of a staged batch into the table. -/
def mergeRows {σ τ κ : Type} [DecidableEq κ] (M : MergeSpec σ τ κ)
    (t : List τ) (rows : List σ) : List τ :=
  rows.foldl (upsertRow M) t

/-- The key column of a table. -/
def tableKeys {τ κ : Type} (keyT : τ → κ) (t : List τ) : List κ := t.map keyT

/-- The rows of the table holding key `k`. -/
def rowsWithKey {τ κ : Type} [DecidableEq κ] (keyT : τ → κ) (k : κ) (t : List τ) :
    List τ :=
  t.filter (fun x => decide (keyT x = k))

theorem any_key_eq_true {τ κ : Type} [DecidableEq κ] (keyT : τ → κ) (t : List τ) (k : κ) :
    (t.any fun x => decide (keyT x = k)) = true ↔ k ∈ tableKeys keyT t := by
  simp [tableKeys, List.any_eq_true, List.mem_map]

theorem upsertRow_present {σ τ κ : Type} [DecidableEq κ] (M : MergeSpec σ τ κ)
    {t : List τ} {s : σ} (hp : M.keyS s ∈ tableKeys M.keyT t) :
    upsertRow M t s = t.map (fun x =>
      if M.keyT x = M.keyS s then (if M.changed x s then M.upd s x else x) else x) := by
  unfold upsertRow
  rw [if_pos ((any_key_eq_true M.keyT t (M.keyS s)).mpr hp)]

theorem upsertRow_absent {σ τ κ : Type} [DecidableEq κ] (M : MergeSpec σ τ κ)
    {t : List τ} {s : σ} (hp : M.keyS s ∉ tableKeys M.keyT t) :
    upsertRow M t s = t ++ [M.ins s] := by
  unfold upsertRow
  rw [if_neg (fun hc => hp ((any_key_eq_true M.keyT t (M.keyS s)).mp hc))]

theorem tableKeys_upsert_present {σ τ κ : Type} [DecidableEq κ] (M : MergeSpec σ τ κ)
    (hKU : ∀ s x, M.keyT (M.upd s x) = M.keyS s)
    {t : List τ} {s : σ} (hp : M.keyS s ∈ tableKeys M.keyT t) :
    tableKeys M.keyT (upsertRow M t s) = tableKeys M.keyT t := by
  rw [upsertRow_present M hp]
  unfold tableKeys
  rw [List.map_map]
  refine List.map_congr_left ?_
  intro x _
  by_cases hk : M.keyT x = M.keyS s
  · by_cases hc : M.changed x s <;> simp [Function.comp, hk, hc, hKU s x]
  · simp [Function.comp, hk]

theorem tableKeys_upsert_absent {σ τ κ : Type} [DecidableEq κ] (M : MergeSpec σ τ κ)
    (hKI : ∀ s, M.keyT (M.ins s) = M.keyS s)
    {t : List τ} {s : σ} (hp : M.keyS s ∉ tableKeys M.keyT t) :
    tableKeys M.keyT (upsertRow M t s) = tableKeys M.keyT t ++ [M.keyS s] := by
  rw [upsertRow_absent M hp]
  unfold tableKeys
  simp [hKI s]

theorem mem_tableKeys_upsert {σ τ κ : Type} [DecidableEq κ] (M : MergeSpec σ τ κ)
    (hKI : ∀ s, M.keyT (M.ins s) = M.keyS s)
    (hKU : ∀ s x, M.keyT (M.upd s x) = M.keyS s)
    {t : List τ} {s : σ} {k : κ} (h : k ∈ tableKeys M.keyT t) :
    k ∈ tableKeys M.keyT (upsertRow M t s) := by
  by_cases hp : M.keyS s ∈ tableKeys M.keyT t
  · rw [tableKeys_upsert_present M hKU hp]; exact h
  · rw [tableKeys_upsert_absent M hKI hp]; exact List.mem_append_left _ h

theorem keyS_mem_tableKeys_upsert {σ τ κ : Type} [DecidableEq κ] (M : MergeSpec σ τ κ)
    (hKI : ∀ s, M.keyT (M.ins s) = M.keyS s)
    (hKU : ∀ s x, M.keyT (M.upd s x) = M.keyS s)
    (t : List τ) (s : σ) :
    M.keyS s ∈ tableKeys M.keyT (upsertRow M t s) := by
  by_cases hp : M.keyS s ∈ tableKeys M.keyT t
  · rw [tableKeys_upsert_present M hKU hp]; exact hp
  · rw [tableKeys_upsert_absent M hKI hp]; simp

theorem mergeRows_nil {σ τ κ : Type} [DecidableEq κ] (M : MergeSpec σ τ κ) (t : List τ) :
    mergeRows M t ([] : List σ) = t := rfl

theorem mergeRows_cons {σ τ κ : Type} [DecidableEq κ] (M : MergeSpec σ τ κ)
    (t : List τ) (r : σ) (rows : List σ) :
    mergeRows M t (r :: rows) = mergeRows M (upsertRow M t r) rows := rfl

theorem mergeRows_append {σ τ κ : Type} [DecidableEq κ] (M : MergeSpec σ τ κ)
    (t : List τ) (l1 l2 : List σ) :
    mergeRows M t (l1 ++ l2) = mergeRows M (mergeRows M t l1) l2 := by
  unfold mergeRows
  rw [List.foldl_append]

theorem mem_tableKeys_mergeRows {σ τ κ : Type} [DecidableEq κ] (M : MergeSpec σ τ κ)
    (hKI : ∀ s, M.keyT (M.ins s) = M.keyS s)
    (hKU : ∀ s x, M.keyT (M.upd s x) = M.keyS s)
    {rows : List σ} {t : List τ} {k : κ} (h : k ∈ tableKeys M.keyT t) :
    k ∈ tableKeys M.keyT (mergeRows M t rows) := by
  induction rows generalizing t with
  | nil => exact h
  | cons r rs ih =>
    rw [mergeRows_cons]
    exact ih (mem_tableKeys_upsert M hKI hKU h)

theorem staged_key_mem_mergeRows {σ τ κ : Type} [DecidableEq κ] (M : MergeSpec σ τ κ)
    (hKI : ∀ s, M.keyT (M.ins s) = M.keyS s)
    (hKU : ∀ s x, M.keyT (M.upd s x) = M.keyS s)
    {rows : List σ} {t : List τ} {s : σ} (hs : s ∈ rows) :
    M.keyS s ∈ tableKeys M.keyT (mergeRows M t rows) := by
  induction rows generalizing t with
  | nil => cases hs
  | cons r rs ih =>
    rw [mergeRows_cons]
    rcases List.mem_cons.mp hs with h | h
    · subst h
      exact mem_tableKeys_mergeRows M hKI hKU (keyS_mem_tableKeys_upsert M hKI hKU t s)
    · exact ih h

theorem tableKeys_mergeRows_sub {σ τ κ : Type} [DecidableEq κ] (M : MergeSpec σ τ κ)
    (hKI : ∀ s, M.keyT (M.ins s) = M.keyS s)
    (hKU : ∀ s x, M.keyT (M.upd s x) = M.keyS s)
    {rows : List σ} {t : List τ} {k : κ}
    (h : k ∈ tableKeys M.keyT (mergeRows M t rows)) :
    k ∈ tableKeys M.keyT t ∨ k ∈ rows.map M.keyS := by
  induction rows generalizing t with
  | nil => exact Or.inl h
  | cons r rs ih =>
    rw [mergeRows_cons] at h
    rcases ih h with h1 | h1
    · by_cases hp : M.keyS r ∈ tableKeys M.keyT t
      · rw [tableKeys_upsert_present M hKU hp] at h1; exact Or.inl h1
      · rw [tableKeys_upsert_absent M hKI hp] at h1
        rcases List.mem_append.mp h1 with h2 | h2
        · exact Or.inl h2
        · right
          rw [List.mem_singleton.mp h2]
          exact List.mem_map_of_mem M.keyS (List.mem_cons_self r rs)
    · exact Or.inr (List.mem_map.mpr (by
        rcases List.mem_map.mp h1 with ⟨s, hs, hsk⟩
        exact ⟨s, List.mem_cons_of_mem r hs, hsk⟩))

theorem rowsWithKey_map {τ κ : Type} [DecidableEq κ] (keyT : τ → κ) (k : κ)
    (t : List τ) (f g : τ → τ)
    (hf : ∀ x ∈ t, (keyT x = k → (f x = g x ∧ keyT (g x) = k)) ∧
                   (keyT x ≠ k → keyT (f x) ≠ k)) :
    rowsWithKey keyT k (t.map f) = (rowsWithKey keyT k t).map g := by
  induction t with
  | nil => rfl
  | cons x xs ih =>
    have hx := hf x (List.mem_cons_self x xs)
    have ihx : rowsWithKey keyT k (xs.map f) = (rowsWithKey keyT k xs).map g :=
      ih (fun y hy => hf y (List.mem_cons_of_mem x hy))
    by_cases hk : keyT x = k
    · have h1 := (hx.1 hk).1
      have h2 := (hx.1 hk).2
      unfold rowsWithKey at ihx ⊢
      rw [List.map_cons, h1, List.filter_cons_of_pos (by simp [h2]),
        List.filter_cons_of_pos (by simp [hk]), List.map_cons, ihx]
    · have h2 := hx.2 hk
      unfold rowsWithKey at ihx ⊢
      rw [List.map_cons, List.filter_cons_of_neg (by simp [h2]),
        List.filter_cons_of_neg (by simp [hk])]
      exact ihx

theorem rowsWithKey_upsert_ne {σ τ κ : Type} [DecidableEq κ] (M : MergeSpec σ τ κ)
    (hKI : ∀ s, M.keyT (M.ins s) = M.keyS s)
    (hKU : ∀ s x, M.keyT (M.upd s x) = M.keyS s)
    {t : List τ} {s : σ} {k : κ} (hne : M.keyS s ≠ k) :
    rowsWithKey M.keyT k (upsertRow M t s) = rowsWithKey M.keyT k t := by
  by_cases hp : M.keyS s ∈ tableKeys M.keyT t
  · rw [upsertRow_present M hp]
    have hmap : rowsWithKey M.keyT k (t.map (fun x =>
        if M.keyT x = M.keyS s then (if M.changed x s then M.upd s x else x) else x))
        = (rowsWithKey M.keyT k t).map id := by
      apply rowsWithKey_map
      intro x _
      constructor
      · intro hk
        have hne2 : ¬(M.keyT x = M.keyS s) := fun h => hne (by rw [← h, hk])
        constructor
        · show (if M.keyT x = M.keyS s then
              (if M.changed x s then M.upd s x else x) else x) = id x
          rw [if_neg hne2]; rfl
        · exact hk
      · intro hk
        show M.keyT (if M.keyT x = M.keyS s then
            (if M.changed x s then M.upd s x else x) else x) ≠ k
        by_cases hxs : M.keyT x = M.keyS s
        · rw [if_pos hxs]
          by_cases hc : M.changed x s
          · rw [if_pos hc, hKU s x]; exact hne
          · rw [if_neg hc]; exact hk
        · rw [if_neg hxs]; exact hk
    rw [hmap, List.map_id]
  · rw [upsertRow_absent M hp]
    unfold rowsWithKey
    rw [List.filter_append]
    have : List.filter (fun x => decide (M.keyT x = k)) [M.ins s] = [] := by
      simp [hKI s, hne]
    rw [this, List.append_nil]

theorem rowsWithKey_mergeRows_ne {σ τ κ : Type} [DecidableEq κ] (M : MergeSpec σ τ κ)
    (hKI : ∀ s, M.keyT (M.ins s) = M.keyS s)
    (hKU : ∀ s x, M.keyT (M.upd s x) = M.keyS s)
    {rows : List σ} {t : List τ} {k : κ} (h : ∀ s ∈ rows, M.keyS s ≠ k) :
    rowsWithKey M.keyT k (mergeRows M t rows) = rowsWithKey M.keyT k t := by
  induction rows generalizing t with
  | nil => rfl
  | cons r rs ih =>
    rw [mergeRows_cons]
    rw [ih (fun s hs => h s (List.mem_cons_of_mem r hs))]
    exact rowsWithKey_upsert_ne M hKI hKU (h r (List.mem_cons_self r rs))

theorem rowsWithKey_upsert_self_absent {σ τ κ : Type} [DecidableEq κ] (M : MergeSpec σ τ κ)
    (hKI : ∀ s, M.keyT (M.ins s) = M.keyS s)
    {t : List τ} {s : σ} (hp : M.keyS s ∉ tableKeys M.keyT t) :
    rowsWithKey M.keyT (M.keyS s) (upsertRow M t s) = [M.ins s] := by
  rw [upsertRow_absent M hp]
  unfold rowsWithKey
  rw [List.filter_append]
  have h1 : List.filter (fun x => decide (M.keyT x = M.keyS s)) t = [] := by
    apply List.filter_eq_nil_iff.mpr
    intro x hx
    simp only [decide_eq_true_eq]
    intro hk
    exact hp (hk ▸ List.mem_map_of_mem M.keyT hx)
  rw [h1]
  simp [hKI s]

theorem rowsWithKey_upsert_self_present {σ τ κ : Type} [DecidableEq κ] (M : MergeSpec σ τ κ)
    (hKU : ∀ s x, M.keyT (M.upd s x) = M.keyS s)
    {t : List τ} {s : σ} (hp : M.keyS s ∈ tableKeys M.keyT t) :
    rowsWithKey M.keyT (M.keyS s) (upsertRow M t s)
      = (rowsWithKey M.keyT (M.keyS s) t).map
          (fun x => if M.changed x s then M.upd s x else x) := by
  rw [upsertRow_present M hp]
  apply rowsWithKey_map
  intro x _
  constructor
  · intro hk
    constructor
    · rw [if_pos hk]
    · by_cases hc : M.changed x s
      · rw [if_pos hc, hKU s x]
      · rw [if_neg hc]; exact hk
  · intro hk
    rw [if_neg hk]
    exact hk

theorem mem_rowsWithKey_upsert_self {σ τ κ : Type} [DecidableEq κ] (M : MergeSpec σ τ κ)
    (hKI : ∀ s, M.keyT (M.ins s) = M.keyS s)
    (hKU : ∀ s x, M.keyT (M.upd s x) = M.keyS s)
    {t : List τ} {s : σ} {z : τ}
    (hz : z ∈ rowsWithKey M.keyT (M.keyS s) (upsertRow M t s)) :
    M.changed z s = false ∨ z = M.ins s ∨ ∃ x, z = M.upd s x := by
  by_cases hp : M.keyS s ∈ tableKeys M.keyT t
  · rw [rowsWithKey_upsert_self_present M hKU hp] at hz
    rcases List.mem_map.mp hz with ⟨x, _, hfx⟩
    have hfx2 : (if M.changed x s then M.upd s x else x) = z := hfx
    by_cases hc : M.changed x s
    · right; right
      exact ⟨x, by rw [← hfx2, if_pos hc]⟩
    · left
      rw [← hfx2, if_neg hc]
      exact Bool.eq_false_iff.mpr hc
  · rw [rowsWithKey_upsert_self_absent M hKI hp] at hz
    right; left
    exact List.mem_singleton.mp hz

theorem mem_upsertRow {σ τ κ : Type} [DecidableEq κ] (M : MergeSpec σ τ κ)
    {t : List τ} {s : σ} {z : τ} (hz : z ∈ upsertRow M t s) :
    z ∈ t ∨ z = M.ins s ∨ ∃ x, z = M.upd s x := by
  by_cases hp : M.keyS s ∈ tableKeys M.keyT t
  · rw [upsertRow_present M hp] at hz
    rcases List.mem_map.mp hz with ⟨x, hx, hfx⟩
    have hfx2 : (if M.keyT x = M.keyS s then
        (if M.changed x s then M.upd s x else x) else x) = z := hfx
    by_cases hk : M.keyT x = M.keyS s
    · by_cases hc : M.changed x s
      · right; right; exact ⟨x, by rw [← hfx2, if_pos hk, if_pos hc]⟩
      · left; rw [← hfx2, if_pos hk, if_neg hc]; exact hx
    · left; rw [← hfx2, if_neg hk]; exact hx
  · rw [upsertRow_absent M hp] at hz
    rcases List.mem_append.mp hz with h | h
    · exact Or.inl h
    · right; left; exact List.mem_singleton.mp h

theorem mem_mergeRows {σ τ κ : Type} [DecidableEq κ] (M : MergeSpec σ τ κ)
    {rows : List σ} {t : List τ} {z : τ} (hz : z ∈ mergeRows M t rows) :
    z ∈ t ∨ ∃ s ∈ rows, z = M.ins s ∨ ∃ x, z = M.upd s x := by
  induction rows generalizing t with
  | nil => exact Or.inl hz
  | cons r rs ih =>
    rw [mergeRows_cons] at hz
    rcases ih hz with h | ⟨s, hs, h⟩
    · rcases mem_upsertRow M h with h1 | h1
      · exact Or.inl h1
      · exact Or.inr ⟨r, List.mem_cons_self r rs, h1⟩
    · exact Or.inr ⟨s, List.mem_cons_of_mem r hs, h⟩

/-- Re-merging an unchanged staged batch (with key-distinct rows) into the
table it has already been merged into is the identity: every staged key is
present with its staged attribute values, so the conditional guard blocks every
rewrite (and the unconditional-update tables are overwritten with the identical
row).  `M1` is the first run's specification and `M2` the second run's; they may
differ in the update function only (e.g. in the audit timestamp it stamps). -/
theorem mergeRows_idem {σ τ κ : Type} [DecidableEq κ] (M1 M2 : MergeSpec σ τ κ)
    (hS : M2.keyS = M1.keyS) (hT : M2.keyT = M1.keyT) (hch : M2.changed = M1.changed)
    (hKI1 : ∀ s, M1.keyT (M1.ins s) = M1.keyS s)
    (hKU1 : ∀ s x, M1.keyT (M1.upd s x) = M1.keyS s)
    (H1 : ∀ s x, M1.changed (M1.upd s x) s = false ∨ M2.upd s (M1.upd s x) = M1.upd s x)
    (H2 : ∀ s, M1.changed (M1.ins s) s = false ∨ M2.upd s (M1.ins s) = M1.ins s)
    (rows : List σ) (t : List τ) (hN : (rows.map M1.keyS).Nodup) :
    mergeRows M2 (mergeRows M1 t rows) rows = mergeRows M1 t rows := by
  induction rows generalizing t with
  | nil => rfl
  | cons r rs ih =>
    have hN1 : (M1.keyS r :: rs.map M1.keyS).Nodup := by
      rw [← List.map_cons]; exact hN
    have hN0 := List.nodup_cons.mp hN1
    have hNr : M1.keyS r ∉ rs.map M1.keyS := hN0.1
    have hN2 : (rs.map M1.keyS).Nodup := hN0.2
    have hrs : ∀ s ∈ rs, M1.keyS s ≠ M1.keyS r :=
      fun s hs h => hNr (h ▸ List.mem_map_of_mem M1.keyS hs)
    rw [mergeRows_cons M1, mergeRows_cons M2]
    have hA : upsertRow M2 (mergeRows M1 (upsertRow M1 t r) rs) r
        = mergeRows M1 (upsertRow M1 t r) rs := by
      have hpres1 : M1.keyS r ∈ tableKeys M1.keyT (mergeRows M1 (upsertRow M1 t r) rs) :=
        mem_tableKeys_mergeRows M1 hKI1 hKU1 (keyS_mem_tableKeys_upsert M1 hKI1 hKU1 t r)
      have hpres : M2.keyS r ∈ tableKeys M2.keyT (mergeRows M1 (upsertRow M1 t r) rs) := by
        rw [hS, hT]; exact hpres1
      rw [upsertRow_present M2 hpres]
      refine (List.map_congr_left ?_).trans (List.map_id _)
      intro x hx
      by_cases hk : M2.keyT x = M2.keyS r
      · have hk1 : M1.keyT x = M1.keyS r := by rw [← hT, ← hS]; exact hk
        have hxk : x ∈ rowsWithKey M1.keyT (M1.keyS r) (mergeRows M1 (upsertRow M1 t r) rs) :=
          List.mem_filter.mpr ⟨hx, decide_eq_true hk1⟩
        rw [rowsWithKey_mergeRows_ne M1 hKI1 hKU1 hrs] at hxk
        rcases mem_rowsWithKey_upsert_self M1 hKI1 hKU1 hxk with hc | hins | ⟨y, hupd⟩
        · have hc2 : M2.changed x r = false := by rw [hch]; exact hc
          simp [hk, hc2]
        · subst hins
          rcases H2 r with hc | hu
        
          · have hc2 : M2.changed (M1.ins r) r = false := by rw [hch]; exact hc
            simp [hk, hc2]
          · by_cases hc2 : M2.changed (M1.ins r) r
            · simp [hk, hc2, hu]
            · simp [hk, hc2]
        · subst hupd
          rcases H1 r y with hc | hu
          · have hc2 : M2.changed (M1.upd r y) r = false := by rw [hch]; exact hc
            simp [hk, hc2]
          · by_cases hc2 : M2.changed (M1.upd r y) r
            · simp [hk, hc2, hu]
            · simp [hk, hc2]
      · simp [hk]
    rw [hA]
    exact ih (upsertRow M1 t r) hN2

/-- Length of a merged table: one new row per staged row whose key was absent
(staged keys assumed distinct). -/
theorem length_mergeRows {σ τ κ : Type} [DecidableEq κ] (M : MergeSpec σ τ κ)
    (hKI : ∀ s, M.keyT (M.ins s) = M.keyS s)
    (hKU : ∀ s x, M.keyT (M.upd s x) = M.keyS s)
    (rows : List σ) (t : List τ) (hN : (rows.map M.keyS).Nodup) :
    (mergeRows M t rows).length
      = t.length
        + (rows.filter (fun s => decide (M.keyS s ∉ tableKeys M.keyT t))).length := by
  induction rows generalizing t with
  | nil => simp [mergeRows_nil]
  | cons r rs ih =>
    have hN1 : (M.keyS r :: rs.map M.keyS).Nodup := by
      rw [← List.map_cons]; exact hN
    have hN0 := List.nodup_cons.mp hN1
    have hNr : M.keyS r ∉ rs.map M.keyS := hN0.1
    have hN2 : (rs.map M.keyS).Nodup := hN0.2
    rw [mergeRows_cons]
    by_cases hp : M.keyS r ∈ tableKeys M.keyT t
    · have hlen : (upsertRow M t r).length = t.length := by
        rw [upsertRow_present M hp]; simp
      rw [ih (upsertRow M t r) hN2, hlen, tableKeys_upsert_present M hKU hp,
        List.filter_cons_of_neg (by simp [hp])]
    · have hlen : (upsertRow M t r).length = t.length + 1 := by
        rw [upsertRow_absent M hp]; simp
      have hfc : rs.filter (fun s => decide (M.keyS s ∉ tableKeys M.keyT t ++ [M.keyS r]))
          = rs.filter (fun s => decide (M.keyS s ∉ tableKeys M.keyT t)) := by
        apply List.filter_congr
        intro s hs
        have hne : M.keyS s ≠ M.keyS r :=
          fun h => hNr (h ▸ List.mem_map_of_mem M.keyS hs)
        apply decide_eq_decide.mpr
        simp [List.mem_append, hne]
      rw [ih (upsertRow M t r) hN2, hlen, tableKeys_upsert_absent M hKI hp, hfc,
        List.filter_cons_of_pos (by simp [hp])]
      simp only [List.length_cons]
      omega

/-- Splitting the batch at a staged row whose key appears nowhere else in the
batch, the merged table's rows at that key are those produced by that row's own
upsert against the pre-merge table. -/
theorem rowsWithKey_mergeRows_split {σ τ κ : Type} [DecidableEq κ] (M : MergeSpec σ τ κ)
    (hKI : ∀ s, M.keyT (M.ins s) = M.keyS s)
    (hKU : ∀ s x, M.keyT (M.upd s x) = M.keyS s)
    (t : List τ) (l1 l2 : List σ) (r : σ)
    (_h1 : ∀ s ∈ l1, M.keyS s ≠ M.keyS r) (h2 : ∀ s ∈ l2, M.keyS s ≠ M.keyS r) :
    rowsWithKey M.keyT (M.keyS r) (mergeRows M t (l1 ++ r :: l2))
      = rowsWithKey M.keyT (M.keyS r) (upsertRow M (mergeRows M t l1) r) := by
  rw [mergeRows_append, mergeRows_cons]
  exact rowsWithKey_mergeRows_ne M hKI hKU h2

/-- Insert case: a staged row whose key is new to the table (and unique in the
batch) ends up in the merged table exactly as `ins` renders it. -/
theorem rowsWithKey_mergeRows_insert {σ τ κ : Type} [DecidableEq κ] (M : MergeSpec σ τ κ)
    (hKI : ∀ s, M.keyT (M.ins s) = M.keyS s)
    (hKU : ∀ s x, M.keyT (M.upd s x) = M.keyS s)
    (t : List τ) (l1 l2 : List σ) (r : σ)
    (h1 : ∀ s ∈ l1, M.keyS s ≠ M.keyS r) (h2 : ∀ s ∈ l2, M.keyS s ≠ M.keyS r)
    (habs : M.keyS r ∉ tableKeys M.keyT t) :
    rowsWithKey M.keyT (M.keyS r) (mergeRows M t (l1 ++ r :: l2)) = [M.ins r] := by
  rw [rowsWithKey_mergeRows_split M hKI hKU t l1 l2 r h1 h2]
  apply rowsWithKey_upsert_self_absent M hKI
  intro hc
  rcases tableKeys_mergeRows_sub M hKI hKU hc with h | h
  · exact habs h
  · rcases List.mem_map.mp h with ⟨s, hs, hsk⟩
    exact h1 s hs hsk

/-- Conflict case: a staged row whose key is already stored (uniquely) either
rewrites the stored row to `upd` of itself (when the change guard fires) or
leaves it exactly as it was. -/
theorem rowsWithKey_mergeRows_conflict {σ τ κ : Type} [DecidableEq κ] (M : MergeSpec σ τ κ)
    (hKI : ∀ s, M.keyT (M.ins s) = M.keyS s)
    (hKU : ∀ s x, M.keyT (M.upd s x) = M.keyS s)
    (t : List τ) (l1 l2 : List σ) (r : σ) (x : τ)
    (h1 : ∀ s ∈ l1, M.keyS s ≠ M.keyS r) (h2 : ∀ s ∈ l2, M.keyS s ≠ M.keyS r)
    (hx : rowsWithKey M.keyT (M.keyS r) t = [x]) :
    rowsWithKey M.keyT (M.keyS r) (mergeRows M t (l1 ++ r :: l2))
      = [if M.changed x r then M.upd r x else x] := by
  rw [rowsWithKey_mergeRows_split M hKI hKU t l1 l2 r h1 h2]
  have hx1 : rowsWithKey M.keyT (M.keyS r) (mergeRows M t l1) = [x] := by
    rw [rowsWithKey_mergeRows_ne M hKI hKU h1]; exact hx
  have hpres : M.keyS r ∈ tableKeys M.keyT (mergeRows M t l1) := by
    have hxm : x ∈ rowsWithKey M.keyT (M.keyS r) (mergeRows M t l1) := by
      rw [hx1]; exact List.mem_singleton_self x
    rcases List.mem_filter.mp hxm with ⟨hxt, hk⟩
    exact (of_decide_eq_true hk) ▸ List.mem_map_of_mem M.keyT hxt
  rw [rowsWithKey_upsert_self_present M hKU hpres, hx1]
  rfl

/-! ### Properties of `dedupFirstBy` -/

theorem mem_dedupFirstByAux {σ κ : Type} [DecidableEq κ] (key : σ → κ) :
    ∀ (fuel : Nat) (l : List σ) (x : σ), x ∈ dedupFirstByAux key fuel l → x ∈ l := by
  intro fuel
  induction fuel with
  | zero => intro l x hx; cases hx
  | succ fuel ih =>
    intro l x hx
    cases l with
    | nil => cases hx
    | cons r rs =>
      rcases List.mem_cons.mp hx with h | h
      · exact h ▸ List.mem_cons_self r rs
      · exact List.mem_cons_of_mem r (List.mem_of_mem_filter (ih _ x h))

theorem dedupFirstByAux_keys_nodup {σ κ : Type} [DecidableEq κ] (key : σ → κ) :
    ∀ (fuel : Nat) (l : List σ), l.length ≤ fuel →
      ((dedupFirstByAux key fuel l).map key).Nodup := by
  intro fuel
  induction fuel with
  | zero =>
    intro l _
    simp [dedupFirstByAux]
  | succ fuel ih =>
    intro l hlen
    cases l with
    | nil => simp [dedupFirstByAux]
    | cons r rs =>
      have hlen2 : (rs.filter (fun s => !(decide (key s = key r)))).length ≤ fuel := by
        have := List.length_filter_le (fun s => !(decide (key s = key r))) rs
        simp only [List.length_cons] at hlen
        omega
      rw [show dedupFirstByAux key (fuel + 1) (r :: rs)
          = r :: dedupFirstByAux key fuel (rs.filter (fun s => !(decide (key s = key r))))
          from rfl]
      rw [List.map_cons]
      apply List.nodup_cons.mpr
      constructor
      · intro hmem
        rcases List.mem_map.mp hmem with ⟨x, hx, hxk⟩
        have hxf := mem_dedupFirstByAux key fuel _ x hx
        have hb := (List.mem_filter.mp hxf).2
        simp at hb
        exact hb hxk
      · exact ih _ hlen2

theorem find?_filter_of_imp {α : Type} (l : List α) (p q : α → Bool)
    (h : ∀ x, p x = true → q x = true) :
    (l.filter q).find? p = l.find? p := by
  induction l with
  | nil => rfl
  | cons a l ih =>
    by_cases hq : q a
    · rw [List.filter_cons_of_pos hq]
      by_cases hp : p a
      · rw [List.find?_cons_of_pos _ hp, List.find?_cons_of_pos _ hp]
      · rw [List.find?_cons_of_neg _ hp, List.find?_cons_of_neg _ hp, ih]
    · have hp : ¬(p a = true) := fun hpa => hq (h a hpa)
      rw [List.filter_cons_of_neg hq, List.find?_cons_of_neg _ hp, ih]

theorem dedupFirstByAux_find? {σ κ : Type} [DecidableEq κ] (key : σ → κ) (k : κ) :
    ∀ (fuel : Nat) (l : List σ), l.length ≤ fuel →
      (dedupFirstByAux key fuel l).find? (fun s => decide (key s = k))
        = l.find? (fun s => decide (key s = k)) := by
  intro fuel
  induction fuel with
  | zero =>
    intro l hlen
    rw [List.eq_nil_of_length_eq_zero (Nat.le_zero.mp hlen)]
    rfl
  | succ fuel ih =>
    intro l hlen
    cases l with
    | nil => rfl
    | cons r rs =>
      have hlen2 : (rs.filter (fun s => !(decide (key s = key r)))).length ≤ fuel := by
        have := List.length_filter_le (fun s => !(decide (key s = key r))) rs
        simp only [List.length_cons] at hlen
        omega
      rw [show dedupFirstByAux key (fuel + 1) (r :: rs)
          = r :: dedupFirstByAux key fuel (rs.filter (fun s => !(decide (key s = key r))))
          from rfl]
      by_cases hk : key r = k
      · rw [List.find?_cons, List.find?_cons]
        simp [hk]
      · rw [List.find?_cons, List.find?_cons]
        simp only [show decide (key r = k) = false from decide_eq_false hk]
        rw [ih _ hlen2, find?_filter_of_imp]
        intro x hx
        have hxk : key x = k := of_decide_eq_true hx
        simp [hxk]
        exact fun h => hk h.symm

theorem dedupFirstBy_keys_nodup {σ κ : Type} [DecidableEq κ] (key : σ → κ) (l : List σ) :
    ((dedupFirstBy key l).map key).Nodup :=
  dedupFirstByAux_keys_nodup key l.length l (Nat.le_refl _)

theorem dedupFirstBy_find? {σ κ : Type} [DecidableEq κ] (key : σ → κ) (k : κ) (l : List σ) :
    (dedupFirstBy key l).find? (fun s => decide (key s = k))
      = l.find? (fun s => decide (key s = k)) :=
  dedupFirstByAux_find? key k l.length l (Nat.le_refl _)

theorem dedupFirstBy_mem_keys {σ κ : Type} [DecidableEq κ] (key : σ → κ) (l : List σ) (k : κ) :
    k ∈ (dedupFirstBy key l).map key ↔ k ∈ l.map key := by
  have h1 : ∀ m : List σ, k ∈ m.map key ↔ (m.find? (fun s => decide (key s = k))).isSome := by
    intro m
    rw [List.find?_isSome]
    simp [List.mem_map, eq_comm]
  rw [h1, h1, dedupFirstBy_find?]

theorem mem_dedupFirstBy {σ κ : Type} [DecidableEq κ] (key : σ → κ) (l : List σ) (x : σ)
    (hx : x ∈ dedupFirstBy key l) : x ∈ l :=
  mem_dedupFirstByAux key l.length l x hx

/-! ### The warehouse loaders (`src/warehouse/load.py`, `load_dim_customer.py`) -/

/-- `MAX_RETRIES` (`load.py` line 21). -/
def MAX_RETRIES : Nat := 3

/-- `RETRY_DELAY_SECONDS` (`load.py` line 22). -/
def RETRY_DELAY_SECONDS : Nat := 2

/-- The dim_date row derived from a `date_key` (`load.py` lines 80-90). -/
def dateRowOf (dk : Nat) : DateRow :=
  let y := dk / 10000
  let m := dk / 100 % 100
  let d := dk % 100
  { date_key := dk, full_date := dk, day := d, month := m,
    quarter := (m + 2) / 3, year := y, weekday_flag := weekdayFlag y m d }

/-- `df[["date_key"]].drop_duplicates()` with its derived columns
(the `tmp_dim_date` staging table). -/
def dateStaging (df : List CleanedRow) : List DateRow :=
  (dedupFirstBy id (df.map CleanedRow.date_key)).map dateRowOf

/-- The channel column triple of a cleaned row. -/
def channelOfCleaned (r : CleanedRow) : ChannelRow :=
  { channel_key := r.channel_key, channel_name := r.channel_name,
    fee_percent := r.fee_percent }

/-- `df[["channel_key", "channel_name", "fee_percent"]].drop_duplicates()`
(the `tmp_dim_channel` staging table, `load.py` line 118). -/
def channelStaging (df : List CleanedRow) : List ChannelRow :=
  dedupFirstBy id (df.map channelOfCleaned)

/-- Projection `df[fact_cols]` of `load.py` lines 143-155. -/
def toFactRow (r : CleanedRow) : FactRow :=
  { transaction_id := r.transaction_id, date_key := r.date_key,
    customer_key := r.customer_key, channel_key := r.channel_key,
    amount := r.amount, status := r.status, processing_time := r.processing_time,
    processing_delay_bucket := r.processing_delay_bucket, revenue := r.revenue }

/-- The `tmp_fact_transactions` staging table (no deduplication in the source). -/
def factStaging (df : List CleanedRow) : List FactRow := df.map toFactRow

/-- dim_date merge: `ON CONFLICT (date_key) DO UPDATE SET ...` with no `WHERE`
guard — the stored row is overwritten unconditionally (`load.py` lines 94-111). -/
def dateSpec : MergeSpec DateRow DateRow Nat :=
  { keyS := DateRow.date_key, keyT := DateRow.date_key,
    ins := id, upd := fun s _ => s, changed := fun _ _ => true }

/-- The `WHERE` guard of the dim_channel merge (`load.py` lines 133-135). -/
def channelChanged (x s : ChannelRow) : Bool :=
  decide (¬(x.channel_name = s.channel_name ∧ x.fee_percent = s.fee_percent))

/-- dim_channel merge (`load.py` lines 122-136). -/
def channelSpec : MergeSpec ChannelRow ChannelRow Nat :=
  { keyS := ChannelRow.channel_key, keyT := ChannelRow.channel_key,
    ins := id, upd := fun s _ => s, changed := channelChanged }

/-- The `WHERE` guard of the fact merge (`load.py` lines 192-197). -/
def factChanged (x s : FactRow) : Bool :=
  decide (¬(x.amount = s.amount ∧ x.status = s.status ∧ x.revenue = s.revenue
    ∧ x.processing_time = s.processing_time
    ∧ x.processing_delay_bucket = s.processing_delay_bucket))

/-- fact_transactions merge (`load.py` lines 159-198): on conflict all columns
are set from the staged row, but only when the guard fires. -/
def factSpec : MergeSpec FactRow FactRow String :=
  { keyS := FactRow.transaction_id, keyT := FactRow.transaction_id,
    ins := id, upd := fun s _ => s, changed := factChanged }

/-- The `WHERE` guard of the dim_customer merge (`load_dim_customer.py`
lines 107-110). -/
def custChanged (x : CustomerRow) (s : CustStaged) : Bool :=
  decide (¬(x.customer_id = s.customer_id ∧ x.signup_date = s.signup_date
    ∧ x.segment = s.segment))

/-- The inserted dim_customer row: the INSERT column list omits `updated_at`. -/
def custIns (s : CustStaged) : CustomerRow :=
  { customer_key := s.customer_key, customer_id := s.customer_id,
    signup_date := s.signup_date, segment := s.segment, updated_at := none }

/-- The updated dim_customer row: attributes from the staged row plus
`updated_at = CURRENT_TIMESTAMP` (`load_dim_customer.py` line 106). -/
def custUpd (now : Nat) (s : CustStaged) (_x : CustomerRow) : CustomerRow :=
  { customer_key := s.customer_key, customer_id := s.customer_id,
    signup_date := s.signup_date, segment := s.segment, updated_at := some now }

/-- dim_customer merge (`load_dim_customer.py` lines 97-111); `now` is the
transaction's `CURRENT_TIMESTAMP`. -/
def custSpec (now : Nat) : MergeSpec CustStaged CustomerRow Nat :=
  { keyS := CustStaged.customer_key, keyT := CustomerRow.customer_key,
    ins := custIns, upd := custUpd now, changed := custChanged }

/-- `df.drop_duplicates(subset=["customer_key"])` (`load_dim_customer.py`
line 72; pandas keeps the first occurrence). -/
def custStaging (cust : List CustStaged) : List CustStaged :=
  dedupFirstBy CustStaged.customer_key cust

/-- Step 1 of the transaction: the dim_date merge. -/
def applyDimDate (w : Warehouse) (df : List CleanedRow) : Warehouse :=
  { w with dim_date := mergeRows dateSpec w.dim_date (dateStaging df) }

/-- Step 2 of the transaction: the dim_channel merge. -/
def applyDimChannel (w : Warehouse) (df : List CleanedRow) : Warehouse :=
  { w with dim_channel := mergeRows channelSpec w.dim_channel (channelStaging df) }

/-- Step 3 of the transaction: the fact merge. -/
def applyFacts (w : Warehouse) (df : List CleanedRow) : Warehouse :=
  { w with fact_transactions := mergeRows factSpec w.fact_transactions (factStaging df) }

/-- The errors the loader can hit. -/
inductive LoadError where
  | missingFile
  | storeError
  deriving DecidableEq, Repr

/-- Which merge step of a run's transaction raises (for fault injection);
`noFail` is the healthy run. -/
inductive StepFail where
  | atDate
  | atChannel
  | atFact
  | noFail
  deriving DecidableEq, Repr

/-- The body of `with engine.begin()` in `load.py` lines 75-200, with an
injectable failure before each merge statement. -/
def transactSteps (w : Warehouse) (df : List CleanedRow) (f : StepFail) :
    Except LoadError Warehouse :=
  if f = StepFail.atDate then Except.error LoadError.storeError
  else
    let w1 := applyDimDate w df
    if f = StepFail.atChannel then Except.error LoadError.storeError
    else
      let w2 := applyDimChannel w1 df
      if f = StepFail.atFact then Except.error LoadError.storeError
      else Except.ok (applyFacts w2 df)

/-- Transaction semantics of `engine.begin()`: the new state on commit, the
pre-transaction state on any raised error (automatic rollback). -/
def commitOrRollback (w : Warehouse) (r : Except LoadError Warehouse) : Warehouse :=
  match r with
  | Except.ok w2 => w2
  | Except.error _ => w

/-- The committed state of one healthy fact-loader run. -/
def loadFactPartition (w : Warehouse) (df : List CleanedRow) : Warehouse :=
  applyFacts (applyDimChannel (applyDimDate w df) df) df

/-- What one attempt of the fact loader observes: whether the expected
partition file exists, its rows, and which transaction step (if any) raises. -/
structure AttemptEnv where
  fileExists : Bool
  rows : List CleanedRow
  failAt : StepFail

/-- One iteration of the `while` body in `load.py` lines 58-209:
file check, empty check (early return before any connection), then the
transaction.  `Except.ok none` is the empty-partition early return. -/
def runAttempt (env : AttemptEnv) (w : Warehouse) : Except LoadError (Option Warehouse) :=
  if env.fileExists = false then Except.error LoadError.missingFile
  else if env.rows.length = 0 then Except.ok none
  else
    match transactSteps w env.rows env.failAt with
    | Except.error e => Except.error e
    | Except.ok w2 => Except.ok (some w2)

/-- Observable outcome of a loader invocation: final warehouse state, number of
attempts started, and total seconds slept between attempts. -/
inductive LoadOutcome where
  | success (w : Warehouse) (attempts sleepSeconds : Nat)
  | emptyReturn (w : Warehouse) (attempts sleepSeconds : Nat)
  | fatal (e : LoadError) (w : Warehouse) (attempts sleepSeconds : Nat)
  deriving DecidableEq, Repr

/-- The retry loop of `load.py` lines 57-224 (`attempt = 0; while attempt <
MAX_RETRIES`): on an exception the attempt counter is bumped and, when attempts
remain, the loop sleeps `RETRY_DELAY_SECONDS` and retries; otherwise it
re-raises.  `fuel` starts at `MAX_RETRIES` and always exceeds the remaining
iterations, so the `0` branch is never reached from `load_to_neon`. -/
def retryLoop (body : Nat → Except LoadError (Option Warehouse)) (w : Warehouse) :
    Nat → Nat → Nat → LoadOutcome
  | 0, i, slept => LoadOutcome.fatal LoadError.storeError w i slept
  | fuel + 1, i, slept =>
    match body i with
    | Except.ok none => LoadOutcome.emptyReturn w (i + 1) slept
    | Except.ok (some w2) => LoadOutcome.success w2 (i + 1) slept
    | Except.error e =>
      if i + 1 < MAX_RETRIES then
        retryLoop body w fuel (i + 1) (slept + RETRY_DELAY_SECONDS)
      else LoadOutcome.fatal e w (i + 1) slept

/-- `load_to_neon` of `load.py`: the retry loop over per-attempt environments
(the warehouse state passed to every attempt is the same because each failed
attempt's transaction rolled back). -/
def load_to_neon (envs : Nat → AttemptEnv) (w : Warehouse) : LoadOutcome :=
  retryLoop (fun i => runAttempt (envs i) w) w MAX_RETRIES 0 0

/-- The committed state of one healthy customer-dimension-loader run
(`load_dim_customer.py` lines 71-111). -/
def loadCustomerPartition (w : Warehouse) (cust : List CustStaged) (now : Nat) :
    Warehouse :=
  { w with dim_customer := mergeRows (custSpec now) w.dim_customer (custStaging cust) }

/-- What one attempt of the customer loader observes; `now` is that attempt's
`CURRENT_TIMESTAMP`. -/
structure CustAttemptEnv where
  fileExists : Bool
  rows : List CustStaged
  storeFails : Bool
  now : Nat

/-- One iteration of the `while` body in `load_dim_customer.py` lines 59-119. -/
def runCustAttempt (env : CustAttemptEnv) (w : Warehouse) :
    Except LoadError (Option Warehouse) :=
  if env.fileExists = false then Except.error LoadError.missingFile
  else if env.rows.length = 0 then Except.ok none
  else if env.storeFails then Except.error LoadError.storeError
  else Except.ok (some (loadCustomerPartition w env.rows env.now))

/-- `load_to_neon` of `load_dim_customer.py` (named after its file to keep the
two loaders apart). -/
def load_dim_customer (envs : Nat → CustAttemptEnv) (w : Warehouse) : LoadOutcome :=
  retryLoop (fun i => runCustAttempt (envs i) w) w MAX_RETRIES 0 0

/-- One day's full load: the fact-partition load followed by the
customer-dimension load of the same date's partitions. -/
def fullDailyLoad (w : Warehouse) (df : List CleanedRow) (cust : List CustStaged)
    (now : Nat) : Warehouse :=
  loadCustomerPartition (loadFactPartition w df) cust now

/-! ### The generator (`src/ingestion/ingest.py`) -/

/-- A process date (year, month, day). -/
structure ProcessDate where
  year : Nat
  month : Nat
  day : Nat
  deriving DecidableEq, Repr

/-- The digit string of `process_date.strftime("%Y%m%d")`. -/
def strftimeYmdDigits (pd : ProcessDate) : List Nat :=
  padDigits 4 pd.year ++ padDigits 2 pd.month ++ padDigits 2 pd.day

/-- `int(process_date.strftime("%Y%m%d"))` for a valid date. -/
def dateKeyInt (pd : ProcessDate) : Nat :=
  pd.year * 10000 + pd.month * 100 + pd.day

/-- `f"T{process_date.strftime('%Y%m%d')}{i:05d}"` (`ingest.py` line 51). -/
def transactionIdStr (pd : ProcessDate) (i : Nat) : String :=
  String.mk ('T' :: (strftimeYmdDigits pd ++ padDigits 5 i).map digitChar)

/-- A raw record produced by the generator (`ingest.py` lines 58-66). -/
structure RawRecord where
  transaction_id : String
  date_key : Nat
  customer_key : Nat
  channel_key : Nat
  amount : Rat
  status : String
  processing_time : Rat
  deriving DecidableEq, Repr

/-- The random draws the generator consumes, as an explicit oracle indexed by
the record number: `randint(1, 1000)`, `choice(CHANNELS)`,
`uniform(10, 1000)`, `choices(["success", "failed"], ...)` (`true` picks
`"success"`), and `uniform(0.5, 5.0)`. -/
structure RandDraws where
  customerDraw : Nat → Nat
  channelDraw : Nat → Fin 4
  amountDraw : Nat → Rat
  statusDraw : Nat → Bool
  ptimeDraw : Nat → Rat

/-- `random.choice(CHANNELS)` resolved to the drawn element. -/
def channelChoice (j : Fin 4) : ChannelRow :=
  CHANNEL_DIM.get ⟨j.val, by
    rw [show CHANNEL_DIM.length = 4 from rfl]
    exact j.isLt⟩

/-- `generate_synthetic_transactions` of `ingest.py` lines 45-70. -/
def generate_synthetic_transactions (pd : ProcessDate) (num_records : Nat)
    (draws : RandDraws) : List RawRecord :=
  (List.range num_records).map (fun i =>
    { transaction_id := transactionIdStr pd i
      date_key := dateKeyInt pd
      customer_key := draws.customerDraw i
      channel_key := (channelChoice (draws.channelDraw i)).channel_key
      amount := round2 (draws.amountDraw i)
      status := if draws.statusDraw i then "success" else "failed"
      processing_time := round2 (draws.ptimeDraw i) })

/-! ### Key-preservation facts of the four merge specifications -/

theorem dateSpec_keyIns : ∀ s, dateSpec.keyT (dateSpec.ins s) = dateSpec.keyS s :=
  fun _ => rfl

theorem dateSpec_keyUpd : ∀ s x, dateSpec.keyT (dateSpec.upd s x) = dateSpec.keyS s :=
  fun _ _ => rfl

theorem channelSpec_keyIns : ∀ s, channelSpec.keyT (channelSpec.ins s) = channelSpec.keyS s :=
  fun _ => rfl

theorem channelSpec_keyUpd :
    ∀ s x, channelSpec.keyT (channelSpec.upd s x) = channelSpec.keyS s :=
  fun _ _ => rfl

theorem factSpec_keyIns : ∀ s, factSpec.keyT (factSpec.ins s) = factSpec.keyS s :=
  fun _ => rfl

theorem factSpec_keyUpd : ∀ s x, factSpec.keyT (factSpec.upd s x) = factSpec.keyS s :=
  fun _ _ => rfl

theorem custSpec_keyIns (now : Nat) :
    ∀ s, (custSpec now).keyT ((custSpec now).ins s) = (custSpec now).keyS s :=
  fun _ => rfl

theorem custSpec_keyUpd (now : Nat) :
    ∀ s x, (custSpec now).keyT ((custSpec now).upd s x) = (custSpec now).keyS s :=
  fun _ _ => rfl

/-! ### Staging-table key facts -/

theorem mem_dedupFirstBy_id {κ : Type} [DecidableEq κ] (l : List κ) (k : κ) :
    k ∈ dedupFirstBy id l ↔ k ∈ l := by
  have h := dedupFirstBy_mem_keys id l k
  simpa using h

theorem dateStaging_keys (df : List CleanedRow) :
    (dateStaging df).map DateRow.date_key
      = dedupFirstBy id (df.map CleanedRow.date_key) := by
  unfold dateStaging
  rw [List.map_map]
  have h : DateRow.date_key ∘ dateRowOf = id := funext fun dk => rfl
  rw [h, List.map_id]

theorem dateStaging_keys_nodup (df : List CleanedRow) :
    ((dateStaging df).map DateRow.date_key).Nodup := by
  rw [dateStaging_keys]
  have h := dedupFirstBy_keys_nodup id (df.map CleanedRow.date_key)
  rwa [List.map_id] at h

theorem custStaging_keys_nodup (cust : List CustStaged) :
    ((custStaging cust).map CustStaged.customer_key).Nodup :=
  dedupFirstBy_keys_nodup CustStaged.customer_key cust

theorem nodup_key_split {σ κ : Type} (keyS : σ → κ) (l1 l2 : List σ) (r : σ)
    (hN : ((l1 ++ r :: l2).map keyS).Nodup) :
    (∀ s ∈ l1, keyS s ≠ keyS r) ∧ (∀ s ∈ l2, keyS s ≠ keyS r) := by
  rw [List.map_append, List.map_cons] at hN
  rcases List.nodup_append.mp hN with ⟨_, h2, hdisj⟩
  constructor
  · intro s hs heq
    exact hdisj (List.mem_map_of_mem keyS hs)
      (heq ▸ List.mem_cons_self (keyS r) (l2.map keyS))
  · intro s hs heq
    exact (List.nodup_cons.mp h2).1 (heq ▸ List.mem_map_of_mem keyS hs)

/-! ### Component equations of the loaders -/

theorem loadFactPartition_dim_date (w : Warehouse) (df : List CleanedRow) :
    (loadFactPartition w df).dim_date = mergeRows dateSpec w.dim_date (dateStaging df) :=
  rfl

theorem loadFactPartition_dim_channel (w : Warehouse) (df : List CleanedRow) :
    (loadFactPartition w df).dim_channel
      = mergeRows channelSpec w.dim_channel (channelStaging df) :=
  rfl

theorem loadFactPartition_facts (w : Warehouse) (df : List CleanedRow) :
    (loadFactPartition w df).fact_transactions
      = mergeRows factSpec w.fact_transactions (factStaging df) :=
  rfl

theorem loadFactPartition_dim_customer (w : Warehouse) (df : List CleanedRow) :
    (loadFactPartition w df).dim_customer = w.dim_customer :=
  rfl

/-! ### Concrete fixtures used by witnesses and counterexamples -/

/-- The empty warehouse. -/
def w0 : Warehouse :=
  { dim_date := [], dim_channel := [], dim_customer := [], fact_transactions := [] }

/-- A sample cleaned-partition row (integer-valued rationals so that concrete
witnesses evaluate by `decide`). -/
def sampleRow : CleanedRow :=
  { transaction_id := "T2025010100000", date_key := 20250101, customer_key := 5,
    channel_key := 2, amount := 100, status := "success", processing_time := 2,
    channel_name := "Debit Card", fee_percent := 1,
    processing_delay_bucket := "medium", revenue := 1 }

/-- A sample staged customer row. -/
def sampleCust : CustStaged :=
  { customer_key := 5, customer_id := "CUST-123456", signup_date := "2023-04-01",
    segment := "Retail" }

/-! ### C9 -/

/-- C9: the transformer's delay bucket is `fast` for processing times below one
second, `medium` from one up to (but excluding) three seconds and `slow` from
three seconds on, and revenue is amount times fee_percent over 100, so an
amount of 100 at a 2.5 percent fee yields revenue 2.50. -/
theorem bucket_and_revenue_derivation (t : Rat) :
    (t < 1 → derive_processing_bucket t = "fast")
    ∧ (1 ≤ t → t < 3 → derive_processing_bucket t = "medium")
    ∧ (3 ≤ t → derive_processing_bucket t = "slow")
    ∧ revenueOf 100 (5 / 2) = 5 / 2 := by
  refine ⟨?_, ?_, ?_, ?_⟩
  · intro h
    simp [derive_processing_bucket, h]
  · intro h1 h2
    simp [derive_processing_bucket, not_lt.mpr h1, h2]
  · intro h
    have h1 : ¬(t < 1) := not_lt.mpr (le_trans (by norm_num) h)
    simp [derive_processing_bucket, h1, not_lt.mpr h]
  · norm_num [revenueOf]

/-- Witness for C9 at the spec's three sample processing times and the sample
revenue input. -/
theorem bucket_and_revenue_derivation_witness :
    derive_processing_bucket (1 / 2) = "fast"
    ∧ derive_processing_bucket (3 / 2) = "medium"
    ∧ derive_processing_bucket (7 / 2) = "slow"
    ∧ revenueOf 100 (5 / 2) = 5 / 2 :=
  ⟨(bucket_and_revenue_derivation (1 / 2)).1 (by norm_num),
    (bucket_and_revenue_derivation (3 / 2)).2.1 (by norm_num) (by norm_num),
    (bucket_and_revenue_derivation (7 / 2)).2.2.1 (by norm_num),
    (bucket_and_revenue_derivation 0).2.2.2⟩

/-! ### C3 -/

/-- C3: whichever merge step of the transaction raises — the dim_date upsert,
the dim_channel upsert or the fact upsert — the committed warehouse state after
the failed attempt is exactly the pre-attempt state (full rollback), while a
healthy transaction commits the three merges. -/
theorem transaction_rollback_atomic (w : Warehouse) (df : List CleanedRow)
    (f : StepFail) (hf : f ≠ StepFail.noFail) :
    commitOrRollback w (transactSteps w df f) = w
    ∧ transactSteps w df StepFail.noFail = Except.ok (loadFactPartition w df) := by
  constructor
  · cases f with
    | atDate => rfl
    | atChannel => rfl
    | atFact => rfl
    | noFail => exact absurd rfl hf
  · rfl

/-- Witness for C3: a fact-step failure after the dimension merges leaves the
empty warehouse untouched. -/
theorem transaction_rollback_atomic_witness :
    StepFail.atFact ≠ StepFail.noFail
    ∧ commitOrRollback w0 (transactSteps w0 [sampleRow] StepFail.atFact) = w0 :=
  ⟨by decide, (transaction_rollback_atomic w0 [sampleRow] StepFail.atFact (by decide)).1⟩

/-! ### C6 -/

/-- C6: a zero-row partition makes both loaders log a warning and return early
on the first attempt: no error, no retry, no sleep, the warehouse untouched —
and since the return happens before `create_engine`, the outcome is the same
whatever the store would have done (the environments' failure fields are
unconstrained). -/
theorem empty_partition_early_return (w : Warehouse) (envs : Nat → AttemptEnv)
    (cenvs : Nat → CustAttemptEnv)
    (hfile : (envs 0).fileExists = true) (hempty : (envs 0).rows = [])
    (hcf : (cenvs 0).fileExists = true) (hce : (cenvs 0).rows = []) :
    load_to_neon envs w = LoadOutcome.emptyReturn w 1 0
    ∧ load_dim_customer cenvs w = LoadOutcome.emptyReturn w 1 0 := by
  constructor
  · have hb : runAttempt (envs 0) w = Except.ok none := by
      unfold runAttempt
      rw [hfile, hempty]
      rfl
    unfold load_to_neon
    rw [show MAX_RETRIES = 3 from rfl]
    unfold retryLoop
    rw [hb]
  · have hb : runCustAttempt (cenvs 0) w = Except.ok none := by
      unfold runCustAttempt
      rw [hcf, hce]
      rfl
    unfold load_dim_customer
    rw [show MAX_RETRIES = 3 from rfl]
    unfold retryLoop
    rw [hb]

/-- Per-attempt environments with an empty partition and a store that would
fail: the early return never reaches it. -/
def envEmpty : Nat → AttemptEnv :=
  fun _ => { fileExists := true, rows := [], failAt := StepFail.atFact }

/-- Customer-loader analogue of `envEmpty`. -/
def cenvEmpty : Nat → CustAttemptEnv :=
  fun _ => { fileExists := true, rows := [], storeFails := true, now := 0 }

/-- Witness for C6 on the empty warehouse. -/
theorem empty_partition_early_return_witness :
    load_to_neon envEmpty w0 = LoadOutcome.emptyReturn w0 1 0
    ∧ load_dim_customer cenvEmpty w0 = LoadOutcome.emptyReturn w0 1 0 :=
  empty_partition_early_return w0 envEmpty cenvEmpty rfl rfl rfl rfl

/-! ### C4 -/

/-- C4: against a transiently failing store, the loader succeeds on attempt
`N + 1` when the first `N < 3` attempts raise (sleeping the fixed delay after
each failure), and against a store that always fails it makes exactly
`MAX_RETRIES = 3` attempts, sleeps the fixed delay between consecutive attempts
but not after the last, and re-raises the final error. -/
theorem retry_policy_bound (w : Warehouse) (envs : Nat → AttemptEnv) (N : Nat)
    (w2 : Warehouse) :
    (N < MAX_RETRIES →
      (∀ i, i < N → runAttempt (envs i) w = Except.error LoadError.storeError) →
      runAttempt (envs N) w = Except.ok (some w2) →
      load_to_neon envs w
        = LoadOutcome.success w2 (N + 1) (N * RETRY_DELAY_SECONDS))
    ∧ ((∀ i, i < MAX_RETRIES → runAttempt (envs i) w = Except.error LoadError.storeError) →
      load_to_neon envs w
        = LoadOutcome.fatal LoadError.storeError w MAX_RETRIES
            ((MAX_RETRIES - 1) * RETRY_DELAY_SECONDS)) := by
  constructor
  · intro hN hfail hok
    rw [show (MAX_RETRIES : Nat) = 3 from rfl] at hN
    unfold load_to_neon
    interval_cases N
    · simp [retryLoop, hok, MAX_RETRIES, RETRY_DELAY_SECONDS]
    · have h0 := hfail 0 (by norm_num)
      simp [retryLoop, h0, hok, MAX_RETRIES, RETRY_DELAY_SECONDS]
    · have h0 := hfail 0 (by norm_num)
      have h1 := hfail 1 (by norm_num)
      simp [retryLoop, h0, h1, hok, MAX_RETRIES, RETRY_DELAY_SECONDS]
  · intro hfail
    have h0 := hfail 0 (by norm_num [MAX_RETRIES])
    have h1 := hfail 1 (by norm_num [MAX_RETRIES])
    have h2 := hfail 2 (by norm_num [MAX_RETRIES])
    unfold load_to_neon
    simp [retryLoop, h0, h1, h2, MAX_RETRIES, RETRY_DELAY_SECONDS]

/-- Per-attempt environments whose first attempt raises in the fact merge and
whose later attempts are healthy. -/
def envFailThenOk : Nat → AttemptEnv := fun i =>
  if i = 0 then { fileExists := true, rows := [sampleRow], failAt := StepFail.atFact }
  else { fileExists := true, rows := [sampleRow], failAt := StepFail.noFail }

/-- Per-attempt environments whose every attempt raises in the fact merge. -/
def envAlwaysFail : Nat → AttemptEnv := fun _ =>
  { fileExists := true, rows := [sampleRow], failAt := StepFail.atFact }

/-- Witness for C4: one transient failure then success on attempt 2 with one
sleep, and an always-failing store raising fatally after 3 attempts and 2
sleeps of 2 seconds. -/
theorem retry_policy_bound_witness :
    load_to_neon envFailThenOk w0
      = LoadOutcome.success (loadFactPartition w0 [sampleRow]) 2 2
    ∧ load_to_neon envAlwaysFail w0
      = LoadOutcome.fatal LoadError.storeError w0 3 4 := by
  constructor
  · exact (retry_policy_bound w0 envFailThenOk 1 (loadFactPartition w0 [sampleRow])).1
      (by norm_num [MAX_RETRIES])
      (by intro i hi; interval_cases i; rfl)
      rfl
  · exact (retry_policy_bound w0 envAlwaysFail 0 w0).2
      (by intro i _; rfl)

/-! ### C5 -/

/-- Per-attempt environments where the expected partition file is absent. -/
def envMissing : Nat → AttemptEnv := fun _ =>
  { fileExists := false, rows := [], failAt := StepFail.noFail }

/-- Counterexample to C5 as stated: with the partition file absent on every
attempt, the loader does NOT raise on the first attempt without sleeping — it
makes 3 attempts with 4 seconds of sleep before re-raising the missing-file
error, because `FileNotFoundError` is raised inside the retried `try` block. -/
theorem missing_partition_retried_counterexample :
    load_to_neon envMissing w0
      = LoadOutcome.fatal LoadError.missingFile w0 3 4
    ∧ ¬(load_to_neon envMissing w0
        = LoadOutcome.fatal LoadError.missingFile w0 1 0) :=
  ⟨rfl, by decide⟩

/-- C5 amended: a missing partition file raises `FileNotFoundError` inside the
retried `try` block, so it is retried like any other exception: the loader
makes all `MAX_RETRIES` attempts, sleeping the fixed delay after each non-final
failure, and only then re-raises the missing-file error to the caller. -/
theorem missing_partition_fatal_after_retries (w : Warehouse)
    (envs : Nat → AttemptEnv)
    (h : ∀ i, i < MAX_RETRIES → (envs i).fileExists = false) :
    load_to_neon envs w
      = LoadOutcome.fatal LoadError.missingFile w MAX_RETRIES
          ((MAX_RETRIES - 1) * RETRY_DELAY_SECONDS) := by
  have hb : ∀ i, i < MAX_RETRIES → runAttempt (envs i) w
      = Except.error LoadError.missingFile := by
    intro i hi
    unfold runAttempt
    rw [h i hi]
    rfl
  have h0 := hb 0 (by norm_num [MAX_RETRIES])
  have h1 := hb 1 (by norm_num [MAX_RETRIES])
  have h2 := hb 2 (by norm_num [MAX_RETRIES])
  unfold load_to_neon
  simp [retryLoop, h0, h1, h2, MAX_RETRIES, RETRY_DELAY_SECONDS]

/-- Witness for the amended C5 on the empty warehouse. -/
theorem missing_partition_fatal_after_retries_witness :
    load_to_neon envMissing w0
      = LoadOutcome.fatal LoadError.missingFile w0 3 4 :=
  missing_partition_fatal_after_retries w0 envMissing (fun _ _ => rfl)

/-! ### C1 -/

/-- C1: merging the same unchanged cleaned partition (facts plus the customer
partition) twice in a row gives, after the second run, exactly the state after
the first: no duplicate fact rows, an unchanged fact count, and no dimension
row rewritten — in particular every `updated_at` audit stamp survives, even
though the second run's `CURRENT_TIMESTAMP` (`now2`) differs from the first's.
The two hypotheses say the partition's transaction_ids are distinct and its
channel attributes are functionally determined by `channel_key`, both true of
any partition this pipeline's transformer produces. -/
theorem load_merge_idempotent (w : Warehouse) (df : List CleanedRow)
    (cust : List CustStaged) (now1 now2 : Nat)
    (hfact : ((factStaging df).map FactRow.transaction_id).Nodup)
    (hchan : ((channelStaging df).map ChannelRow.channel_key).Nodup) :
    fullDailyLoad (fullDailyLoad w df cust now1) df cust now2
      = fullDailyLoad w df cust now1 := by
  have hdate : mergeRows dateSpec
      (mergeRows dateSpec w.dim_date (dateStaging df)) (dateStaging df)
      = mergeRows dateSpec w.dim_date (dateStaging df) :=
    mergeRows_idem dateSpec dateSpec rfl rfl rfl dateSpec_keyIns dateSpec_keyUpd
      (fun _ _ => Or.inr rfl) (fun _ => Or.inr rfl)
      (dateStaging df) w.dim_date (dateStaging_keys_nodup df)
  have hchan2 : mergeRows channelSpec
      (mergeRows channelSpec w.dim_channel (channelStaging df)) (channelStaging df)
      = mergeRows channelSpec w.dim_channel (channelStaging df) :=
    mergeRows_idem channelSpec channelSpec rfl rfl rfl
      channelSpec_keyIns channelSpec_keyUpd
      (fun s _ => Or.inl (by simp [channelSpec, channelChanged]))
      (fun s => Or.inl (by simp [channelSpec, channelChanged]))
      (channelStaging df) w.dim_channel hchan
  have hfact2 : mergeRows factSpec
      (mergeRows factSpec w.fact_transactions (factStaging df)) (factStaging df)
      = mergeRows factSpec w.fact_transactions (factStaging df) :=
    mergeRows_idem factSpec factSpec rfl rfl rfl factSpec_keyIns factSpec_keyUpd
      (fun s _ => Or.inl (by simp [factSpec, factChanged]))
      (fun s => Or.inl (by simp [factSpec, factChanged]))
      (factStaging df) w.fact_transactions hfact
  have hcust : mergeRows (custSpec now2)
      (mergeRows (custSpec now1) w.dim_customer (custStaging cust)) (custStaging cust)
      = mergeRows (custSpec now1) w.dim_customer (custStaging cust) :=
    mergeRows_idem (custSpec now1) (custSpec now2) rfl rfl rfl
      (custSpec_keyIns now1) (custSpec_keyUpd now1)
      (fun s x => Or.inl (by simp [custSpec, custUpd, custChanged]))
      (fun s => Or.inl (by simp [custSpec, custIns, custChanged]))
      (custStaging cust) w.dim_customer (custStaging_keys_nodup cust)
  simp only [fullDailyLoad, loadCustomerPartition, loadFactPartition,
    applyDimDate, applyDimChannel, applyFacts]
  rw [hdate, hchan2, hfact2, hcust]

/-- Witness for C1 on a one-row partition against the empty warehouse, with
two different timestamps for the two runs. -/
theorem load_merge_idempotent_witness :
    fullDailyLoad (fullDailyLoad w0 [sampleRow] [sampleCust] 5) [sampleRow] [sampleCust] 9
      = fullDailyLoad w0 [sampleRow] [sampleCust] 5 :=
  load_merge_idempotent w0 [sampleRow] [sampleCust] 5 9 (by decide) (by decide)

/-! ### C2 -/

/-- C2: merging a batch of fact rows with distinct transaction_ids: a row whose
id is absent from the warehouse is inserted verbatim; a row whose id is stored
is rewritten to the staged row exactly when one of amount, status, revenue,
processing_time, processing_delay_bucket differs (`factChanged`), and kept
byte-identical otherwise; and the fact count grows by exactly the number of
new ids. -/
theorem fact_upsert_characterization (t : List FactRow) (rows : List FactRow)
    (hr : (rows.map FactRow.transaction_id).Nodup) :
    ((mergeRows factSpec t rows).length
      = t.length + (rows.filter (fun r =>
          decide (r.transaction_id ∉ t.map FactRow.transaction_id))).length)
    ∧ ∀ r ∈ rows,
        (r.transaction_id ∉ t.map FactRow.transaction_id →
          rowsWithKey FactRow.transaction_id r.transaction_id
            (mergeRows factSpec t rows) = [r])
        ∧ ∀ x, rowsWithKey FactRow.transaction_id r.transaction_id t = [x] →
            (factChanged x r = true →
              rowsWithKey FactRow.transaction_id r.transaction_id
                (mergeRows factSpec t rows) = [r])
            ∧ (factChanged x r = false →
              rowsWithKey FactRow.transaction_id r.transaction_id
                (mergeRows factSpec t rows) = [x]) := by
  constructor
  · exact length_mergeRows factSpec factSpec_keyIns factSpec_keyUpd rows t hr
  · intro r hrmem
    rcases List.append_of_mem hrmem with ⟨l1, l2, hsplit⟩
    subst hsplit
    have hs := nodup_key_split FactRow.transaction_id l1 l2 r hr
    constructor
    · intro habs
      exact rowsWithKey_mergeRows_insert factSpec factSpec_keyIns factSpec_keyUpd
        t l1 l2 r hs.1 hs.2 habs
    · intro x hx
      have hconf : rowsWithKey FactRow.transaction_id r.transaction_id
          (mergeRows factSpec t (l1 ++ r :: l2))
          = [if factChanged x r = true then r else x] :=
        rowsWithKey_mergeRows_conflict factSpec factSpec_keyIns
          factSpec_keyUpd t l1 l2 r x hs.1 hs.2 hx
      constructor
      · intro hc
        rw [hconf, if_pos hc]
      · intro hc
        rw [hconf, if_neg (by rw [hc]; exact Bool.false_ne_true)]

/-- Row A of the spec's concrete scenario: a transaction_id new to the
warehouse. -/
def factA : FactRow :=
  { transaction_id := "T2025010100003", date_key := 20250101, customer_key := 9,
    channel_key := 2, amount := 50, status := "success", processing_time := 1,
    processing_delay_bucket := "medium", revenue := 1 }

/-- Row B: stored already, byte-identical to its staged copy. -/
def factB : FactRow :=
  { transaction_id := "T2025010100001", date_key := 20250101, customer_key := 5,
    channel_key := 2, amount := 100, status := "success", processing_time := 2,
    processing_delay_bucket := "medium", revenue := 1 }

/-- Row C as stored: status "failed". -/
def factCold : FactRow :=
  { transaction_id := "T2025010100002", date_key := 20250101, customer_key := 6,
    channel_key := 3, amount := 200, status := "failed", processing_time := 4,
    processing_delay_bucket := "slow", revenue := 1 }

/-- Row C as staged: status changed to "success". -/
def factCnew : FactRow :=
  { transaction_id := "T2025010100002", date_key := 20250101, customer_key := 6,
    channel_key := 3, amount := 200, status := "success", processing_time := 4,
    processing_delay_bucket := "slow", revenue := 1 }

/-- Witness for C2: the spec's 3-row scenario — A is inserted, B is left
untouched, C is updated for its changed status, and the fact count grows by
exactly 1 (from 2 to 3). -/
theorem fact_upsert_characterization_witness :
    (mergeRows factSpec [factB, factCold] [factA, factB, factCnew]).length = 3
    ∧ rowsWithKey FactRow.transaction_id "T2025010100003"
        (mergeRows factSpec [factB, factCold] [factA, factB, factCnew]) = [factA]
    ∧ rowsWithKey FactRow.transaction_id "T2025010100001"
        (mergeRows factSpec [factB, factCold] [factA, factB, factCnew]) = [factB]
    ∧ rowsWithKey FactRow.transaction_id "T2025010100002"
        (mergeRows factSpec [factB, factCold] [factA, factB, factCnew]) = [factCnew] := by
  have h := fact_upsert_characterization [factB, factCold] [factA, factB, factCnew]
    (by decide)
  refine ⟨h.1.trans (by decide), ?_, ?_, ?_⟩
  · exact (h.2 factA (by decide)).1 (by decide)
  · exact ((h.2 factB (by decide)).2 factB (by decide)).2 (by decide)
  · exact ((h.2 factCnew (by decide)).2 factCold (by decide)).1 (by decide)

/-! ### C7 -/

/-- Date and channel keys of every fact row resolve to dimension rows. -/
def factDimsResolve (w : Warehouse) : Prop :=
  ∀ f ∈ w.fact_transactions,
    f.date_key ∈ w.dim_date.map DateRow.date_key
    ∧ f.channel_key ∈ w.dim_channel.map ChannelRow.channel_key

/-- Counterexample to C7 as stated: after a successful fact load on a fresh
warehouse, the loaded fact row's `customer_key` resolves to no `dim_customer`
row — the fact loader's transaction writes dim_date and dim_channel but never
dim_customer, which only the separate `load_dim_customer.py` script (its own
transaction) writes. -/
theorem customer_key_unresolved_counterexample :
    ¬(∀ f ∈ (loadFactPartition w0 [sampleRow]).fact_transactions,
        f.customer_key
          ∈ (loadFactPartition w0 [sampleRow]).dim_customer.map
              CustomerRow.customer_key) := by
  intro h
  have hf := h (toFactRow sampleRow) (by decide)
  rw [loadFactPartition_dim_customer] at hf
  cases hf

/-- C7 amended: the fact loader's transaction writes the dim_date and
dim_channel rows for every key referenced in the batch before the fact rows,
so after a successful load every fact row's `date_key` and `channel_key`
resolve (given they resolved before the load); `customer_key` resolution is
NOT established by this load — the customer dimension lives in a separate
script and transaction. -/
theorem date_channel_referential_integrity (w : Warehouse) (df : List CleanedRow)
    (h : factDimsResolve w) : factDimsResolve (loadFactPartition w df) := by
  intro f hf
  rw [loadFactPartition_facts] at hf
  rw [loadFactPartition_dim_date, loadFactPartition_dim_channel]
  rcases mem_mergeRows factSpec hf with hold | ⟨s, hs, hins⟩
  · rcases h f hold with ⟨hd, hc⟩
    exact ⟨mem_tableKeys_mergeRows dateSpec dateSpec_keyIns dateSpec_keyUpd hd,
      mem_tableKeys_mergeRows channelSpec channelSpec_keyIns channelSpec_keyUpd hc⟩
  · have hfs : f = s := by
      rcases hins with h1 | ⟨y, h2⟩
      · exact h1
      · exact h2
    subst hfs
    rcases List.mem_map.mp hs with ⟨c, hc, hcs⟩
    subst hcs
    constructor
    · have hmem : c.date_key ∈ dedupFirstBy id (df.map CleanedRow.date_key) :=
        (mem_dedupFirstBy_id _ _).mpr (List.mem_map_of_mem CleanedRow.date_key hc)
      have hstage : dateRowOf c.date_key ∈ dateStaging df :=
        List.mem_map_of_mem dateRowOf hmem
      exact staged_key_mem_mergeRows dateSpec dateSpec_keyIns dateSpec_keyUpd hstage
    · have hmem : channelOfCleaned c ∈ channelStaging df := by
        unfold channelStaging
        exact (mem_dedupFirstBy_id _ _).mpr (List.mem_map_of_mem channelOfCleaned hc)
      exact staged_key_mem_mergeRows channelSpec channelSpec_keyIns
        channelSpec_keyUpd hmem

/-- Witness for the amended C7: a one-row load on the empty warehouse. -/
theorem date_channel_referential_integrity_witness :
    factDimsResolve (loadFactPartition w0 [sampleRow]) :=
  date_channel_referential_integrity w0 [sampleRow]
    (fun f hf => absurd hf (List.not_mem_nil f))

/-! ### C8 -/

/-- First of two staged customer rows sharing `customer_key = 1`. -/
def custDupFirst : CustStaged :=
  { customer_key := 1, customer_id := "CUST-A", signup_date := "2021-01-01",
    segment := "Retail" }

/-- Second (last-in-input-order) staged row with the same key but different
attributes. -/
def custDupLast : CustStaged :=
  { customer_key := 1, customer_id := "CUST-B", signup_date := "2022-02-02",
    segment := "SMB" }

/-- Counterexample to C8 as stated: loading a customer partition whose two
rows share a key writes the FIRST occurrence, not the last —
`drop_duplicates(subset=["customer_key"])` keeps the first row of each key. -/
theorem duplicate_key_last_wins_counterexample :
    (loadCustomerPartition w0 [custDupFirst, custDupLast] 0).dim_customer
      = [custIns custDupFirst]
    ∧ (loadCustomerPartition w0 [custDupFirst, custDupLast] 0).dim_customer
        ≠ [custIns custDupLast]
    ∧ custIns custDupFirst ≠ custIns custDupLast := by
  refine ⟨by decide, by decide, by decide⟩

/-- C8 amended: when a batch holds several rows with the same natural key, the
merge applies deterministic FIRST-writer-wins semantics: pandas
`drop_duplicates` keeps the first occurrence in input order, so for a key new
to the warehouse the row written is built from the batch's first row with that
key (the `find?` below). -/
theorem duplicate_key_first_wins (w : Warehouse) (cust : List CustStaged)
    (now : Nat) (k : Nat) (s : CustStaged)
    (hfind : cust.find? (fun c => decide (c.customer_key = k)) = some s)
    (habs : k ∉ w.dim_customer.map CustomerRow.customer_key) :
    rowsWithKey CustomerRow.customer_key k
        (loadCustomerPartition w cust now).dim_customer = [custIns s] := by
  have hsk : s.customer_key = k := by
    have hp := List.find?_some hfind
    exact of_decide_eq_true hp
  have hfind2 : (custStaging cust).find? (fun c => decide (c.customer_key = k))
      = some s := by
    unfold custStaging
    rw [dedupFirstBy_find?]
    exact hfind
  have hsmem : s ∈ custStaging cust := List.mem_of_find?_eq_some hfind2
  rcases List.append_of_mem hsmem with ⟨l1, l2, hsplit⟩
  have hN := custStaging_keys_nodup cust
  rw [hsplit] at hN
  have hs := nodup_key_split CustStaged.customer_key l1 l2 s hN
  have habs2 : s.customer_key ∉ w.dim_customer.map CustomerRow.customer_key := by
    rw [hsk]; exact habs
  have hres : rowsWithKey CustomerRow.customer_key s.customer_key
      (mergeRows (custSpec now) w.dim_customer (l1 ++ s :: l2)) = [custIns s] :=
    rowsWithKey_mergeRows_insert (custSpec now) (custSpec_keyIns now)
      (custSpec_keyUpd now) w.dim_customer l1 l2 s hs.1 hs.2 habs2
  show rowsWithKey CustomerRow.customer_key k
      (mergeRows (custSpec now) w.dim_customer (custStaging cust)) = [custIns s]
  rw [hsplit, ← hsk]
  exact hres

/-- Witness for the amended C8: the duplicate-key batch on the empty
warehouse at key 1 writes the first occurrence. -/
theorem duplicate_key_first_wins_witness :
    rowsWithKey CustomerRow.customer_key 1
        (loadCustomerPartition w0 [custDupFirst, custDupLast] 7).dim_customer
      = [custIns custDupFirst] :=
  duplicate_key_first_wins w0 [custDupFirst, custDupLast] 7 1 custDupFirst
    (by decide) (by decide)

/-! ### C10 -/

theorem ofDigitsLE_natDigitsAux :
    ∀ (fuel n : Nat), n ≤ fuel → ofDigitsLE (natDigitsAux fuel n) = n := by
  intro fuel
  induction fuel with
  | zero =>
    intro n hn
    rw [Nat.le_zero.mp hn]
    rfl
  | succ fuel ih =>
    intro n hn
    cases n with
    | zero => rfl
    | succ m =>
      have hdiv : (m + 1) / 10 ≤ fuel := by
        have h1 : (m + 1) / 10 < m + 1 := Nat.div_lt_self (Nat.succ_pos m) (by norm_num)
        omega
      show (m + 1) % 10 + 10 * ofDigitsLE (natDigitsAux fuel ((m + 1) / 10)) = m + 1
      rw [ih _ hdiv]
      exact Nat.mod_add_div (m + 1) 10

theorem ofDigitsLE_natDigitsLE (n : Nat) : ofDigitsLE (natDigitsLE n) = n :=
  ofDigitsLE_natDigitsAux n n (Nat.le_refl n)

theorem ofDigitsLE_replicate_zero : ∀ k : Nat, ofDigitsLE (List.replicate k 0) = 0 := by
  intro k
  induction k with
  | zero => rfl
  | succ k ih =>
    show 0 + 10 * ofDigitsLE (List.replicate k 0) = 0
    rw [ih]

theorem ofDigitsLE_append_zeros (l : List Nat) (k : Nat) :
    ofDigitsLE (l ++ List.replicate k 0) = ofDigitsLE l := by
  induction l with
  | nil =>
    show ofDigitsLE (List.replicate k 0) = 0
    exact ofDigitsLE_replicate_zero k
  | cons d ds ih =>
    show d + 10 * ofDigitsLE (ds ++ List.replicate k 0) = d + 10 * ofDigitsLE ds
    rw [ih]

theorem padDigits_inj (w a b : Nat) (h : padDigits w a = padDigits w b) : a = b := by
  have h2 := congrArg List.reverse h
  unfold padDigits at h2
  rw [List.reverse_append, List.reverse_append, List.reverse_replicate,
    List.reverse_replicate, List.reverse_reverse, List.reverse_reverse] at h2
  have h3 := congrArg ofDigitsLE h2
  rw [ofDigitsLE_append_zeros, ofDigitsLE_append_zeros,
    ofDigitsLE_natDigitsLE, ofDigitsLE_natDigitsLE] at h3
  exact h3

theorem natDigitsAux_lt_ten :
    ∀ (fuel n : Nat), ∀ d ∈ natDigitsAux fuel n, d < 10 := by
  intro fuel
  induction fuel with
  | zero => intro n d hd; cases hd
  | succ fuel ih =>
    intro n d hd
    cases n with
    | zero => cases hd
    | succ m =>
      rcases List.mem_cons.mp hd with h | h
      · rw [h]; exact Nat.mod_lt _ (by norm_num)
      · exact ih _ d h

theorem padDigits_lt_ten (w n : Nat) : ∀ d ∈ padDigits w n, d < 10 := by
  intro d hd
  unfold padDigits at hd
  rcases List.mem_append.mp hd with h | h
  · rw [List.eq_of_mem_replicate h]; norm_num
  · exact natDigitsAux_lt_ten n n d (List.mem_reverse.mp h)

theorem digitChar_inj_lt :
    ∀ a, a < 10 → ∀ b, b < 10 → digitChar a = digitChar b → a = b := by decide

theorem map_digitChar_inj :
    ∀ (l1 l2 : List Nat), (∀ d ∈ l1, d < 10) → (∀ d ∈ l2, d < 10) →
      l1.map digitChar = l2.map digitChar → l1 = l2 := by
  intro l1
  induction l1 with
  | nil =>
    intro l2 _ _ h
    cases l2 with
    | nil => rfl
    | cons b t2 => simp at h
  | cons a t ih =>
    intro l2 h1 h2 h
    cases l2 with
    | nil => simp at h
    | cons b t2 =>
      rw [List.map_cons, List.map_cons] at h
      injection h with hab ht
      rw [digitChar_inj_lt a (h1 a (List.mem_cons_self a t)) b
          (h2 b (List.mem_cons_self b t2)) hab,
        ih t2 (fun d hd => h1 d (List.mem_cons_of_mem a hd))
          (fun d hd => h2 d (List.mem_cons_of_mem b hd)) ht]

theorem transactionIdStr_inj (pd : ProcessDate) (a b : Nat)
    (h : transactionIdStr pd a = transactionIdStr pd b) : a = b := by
  unfold transactionIdStr at h
  injection h with hdata
  injection hdata with hT htail
  rw [List.map_append, List.map_append] at htail
  have h4 := List.append_cancel_left htail
  have h5 := map_digitChar_inj (padDigits 5 a) (padDigits 5 b)
    (padDigits_lt_ten 5 a) (padDigits_lt_ten 5 b) h4
  exact padDigits_inj 5 a b h5

theorem round2_pos (x : Rat) (hx : 10 ≤ x) : 0 < round2 x := by
  unfold round2
  have h1 : (1000 : Int) ≤ round (x * 100) := by
    rw [round_eq]
    apply Int.le_floor.mpr
    push_cast
    linarith
  have h2 : (1000 : Rat) ≤ ((round (x * 100) : Int) : Rat) := by
    exact_mod_cast h1
  exact div_pos (by linarith) (by norm_num)

/-- C10: for every process date, record count and stream of random draws
(`uniform(10, 1000)` bounded as documented), the generator emits exactly `n`
records, their transaction_ids — `"T"` plus the `%Y%m%d` date plus the
zero-padded record index — are pairwise distinct, every `date_key` is the
process date as a `YYYYMMDD` integer, every status is `success` or `failed`,
and every amount is positive. -/
theorem generator_output_properties (pd : ProcessDate) (n : Nat) (draws : RandDraws)
    (hamt : ∀ i, 10 ≤ draws.amountDraw i ∧ draws.amountDraw i ≤ 1000) :
    (generate_synthetic_transactions pd n draws).length = n
    ∧ ((generate_synthetic_transactions pd n draws).map RawRecord.transaction_id).Nodup
    ∧ ∀ r ∈ generate_synthetic_transactions pd n draws,
        r.date_key = dateKeyInt pd
        ∧ (r.status = "success" ∨ r.status = "failed")
        ∧ 0 < r.amount := by
  refine ⟨?_, ?_, ?_⟩
  · unfold generate_synthetic_transactions
    rw [List.length_map, List.length_range]
  · unfold generate_synthetic_transactions
    rw [List.map_map]
    have hinj : Function.Injective (fun i => transactionIdStr pd i) :=
      fun a b hab => transactionIdStr_inj pd a b hab
    exact List.Nodup.map hinj (List.nodup_range n)
  · intro r hr
    unfold generate_synthetic_transactions at hr
    rcases List.mem_map.mp hr with ⟨i, _, hrec⟩
    subst hrec
    refine ⟨rfl, ?_, ?_⟩
    · by_cases hs : draws.statusDraw i
      · left; simp [hs]
      · right; simp [hs]
    · exact round2_pos (draws.amountDraw i) (hamt i).1

/-- Constant draw streams for the generator witness. -/
def sampleDraws : RandDraws :=
  { customerDraw := fun _ => 7, channelDraw := fun _ => 0,
    amountDraw := fun _ => 100, statusDraw := fun _ => true, ptimeDraw := fun _ => 1 }

/-- Witness for C10 at a concrete date, count 3 and the constant draws. -/
theorem generator_output_properties_witness :
    (generate_synthetic_transactions ⟨2025, 1, 1⟩ 3 sampleDraws).length = 3
    ∧ ((generate_synthetic_transactions ⟨2025, 1, 1⟩ 3 sampleDraws).map
        RawRecord.transaction_id).Nodup
    ∧ ∀ r ∈ generate_synthetic_transactions ⟨2025, 1, 1⟩ 3 sampleDraws,
        r.date_key = dateKeyInt ⟨2025, 1, 1⟩
        ∧ (r.status = "success" ∨ r.status = "failed")
        ∧ 0 < r.amount :=
  generator_output_properties ⟨2025, 1, 1⟩ 3 sampleDraws
    (fun _ => ⟨by norm_num [sampleDraws], by norm_num [sampleDraws]⟩)
